import Mathlib

/-!
# symlink-track: one-hop symbolic link resolution and its driver loop

A shallow embedding of `src/symlink-track.c`.

* C strings are lists of characters without the terminating NUL (`CStr`).
* The filesystem is abstract: `lstat` and `readlink` are functions of the path (`FS`).
* The file-scope variables `current`, `next`, `hops`, `max_hops` and `errno` are the
  fields of `Globals`, threaded explicitly through `find_next` and the loop of `main`.
* `malloc` is taken to succeed, so the two allocation-failure returns of `find_next`
  have no counterpart here.
* Writing past the end of a heap buffer is undefined behaviour and is reported as such
  (`none` from `find_next`, `Result.undefined` from the loop).
-/

namespace SymlinkTrack

/-- A C string: the characters before the terminating NUL. -/
abbrev CStr := List Char

/-- An `errno` value. -/
abbrev Errno := Nat

/-- No such file or directory. -/
def ENOENT : Errno := 2

/-- File name too long. -/
def ENAMETOOLONG : Errno := 36

/-- Exit status of a successful run. -/
def EXIT_SUCCESS : Nat := 0

/-- Exit status of a failed run. -/
def EXIT_FAILURE : Nat := 1

/-- Platform constants that the source takes from the system headers. -/
structure Platform where
  /-- The value of `PATH_MAX` from `limits.h`. -/
  PATH_MAX : Nat
  /-- The value of `PATH_MAX` is positive. -/
  PATH_MAX_pos : 0 < PATH_MAX
  /-- The value of `SIZE_MAX` from `stdint.h`, the largest `size_t`. -/
  SIZE_MAX : Nat
  /-- The C standard requires `SIZE_MAX` to be at least 65535. -/
  SIZE_MAX_min : 65535 ≤ SIZE_MAX
  /-- Whether `sys/stat.h` defines `S_IFWHT`. -/
  hasWhiteout : Bool
  /-- The text `strerror` gives for an `errno` value. -/
  strerror : Errno → CStr

/-- An abstract filesystem: what `lstat` reports for a path (an `errno`, or the
`st_mode` of the entry itself) and what a link at a path contains. -/
structure FS where
  /-- Result of `lstat`: the error, or `st_mode`. -/
  lstat : CStr → Except Errno Nat
  /-- Content of the link, or the error of `readlink`. -/
  readlink : CStr → Except Errno CStr

/-- Mask of the file-type bits of `st_mode`. -/
def S_IFMT : Nat := 0o170000
/-- Type bits of a socket. -/
def S_IFSOCK : Nat := 0o140000
/-- Type bits of a symbolic link. -/
def S_IFLNK : Nat := 0o120000
/-- Type bits of a regular file. -/
def S_IFREG : Nat := 0o100000
/-- Type bits of a block device. -/
def S_IFBLK : Nat := 0o060000
/-- Type bits of a directory. -/
def S_IFDIR : Nat := 0o040000
/-- Type bits of a character device. -/
def S_IFCHR : Nat := 0o020000
/-- Type bits of a FIFO. -/
def S_IFIFO : Nat := 0o010000
/-- Type bits of a whiteout, on the platforms that have it. -/
def S_IFWHT : Nat := 0o160000

/-- The test `S_ISLNK (val)`, i.e. `((val) & S_IFMT) == S_IFLNK`. -/
def S_ISLNK (val : Nat) : Bool := (val &&& S_IFMT) == S_IFLNK

/-- The system call `readlink (path, buf, bufsiz)`: at most `bufsiz` bytes of the link
content are placed in the buffer; the returned count is the length of the result. -/
def readlink (fs : FS) (path : CStr) (bufsiz : Nat) : Except Errno CStr :=
  match fs.readlink path with
  | .error e => .error e
  | .ok target => .ok (target.take bufsiz)

/-- Removes the slashes at the end of a string. -/
def stripSlashes (s : CStr) : CStr :=
  (s.reverse.dropWhile (fun c => c == '/')).reverse

/-- What `dirname` leaves of a run of leading slashes: exactly two slashes are kept,
any other number collapses to one. -/
def rootOf (slashes : CStr) : CStr :=
  if slashes.length = 2 then "//".toList else "/".toList

/-- The C library function `dirname` of `libgen.h` (it is not part of the repository;
this follows the GNU implementation, which conforms to POSIX): the path without its
last component, `"."` when there is no slash, the root when nothing else is left. -/
def dirname (path : CStr) : CStr :=
  let s := stripSlashes path
  if s = [] then
    if path = [] then ".".toList else rootOf path
  else
    let t := (s.reverse.dropWhile (fun c => c != '/')).reverse
    if t = [] then ".".toList
    else
      let u := stripSlashes t
      if u = [] then rootOf t else u

/-- The call `snprintf (buf, size, "%s/%s", dir, old_next)` on a zeroed buffer, given the
fully formatted text: at most `size - 1` characters are stored, and the return value is
the length of the full text. -/
def snprintf (size : Nat) (text : CStr) : CStr × Nat :=
  (text.take (size - 1), text.length)

/-- The file-scope variables of the program. `next` is `none` while the pointer is
null or dangling, and the string it points to otherwise. -/
structure Globals where
  /-- Current file. -/
  current : CStr
  /-- Next file. -/
  next : Option CStr
  /-- The number of hops performed so far. -/
  hops : Nat
  /-- Maximum number of hops allowed. -/
  max_hops : Nat
  /-- The C library variable `errno`. -/
  errno : Errno
deriving DecidableEq

/-- The second half of `find_next` (from the second `lstat` on): inspects the
candidate that is now in `next`. -/
def find_next_inspect (fs : FS) (g : Globals) (next : CStr) : Int × Globals :=
  match fs.lstat next with
  | .error e =>
    if e = ENOENT then (2, { g with next := some next, errno := e })
    else (3, { g with next := some next, errno := e })
  | .ok _ => (0, { g with next := some next })

/-- The function `find_next`: the returned code and the globals after the call, or
`none` when a copy overruns the `PATH_MAX + 1` bytes of `dir`. -/
def find_next (pf : Platform) (fs : FS) (g : Globals) : Option (Int × Globals) :=
  match fs.lstat g.current with
  | .error e => some (3, { g with errno := e })
  | .ok st_mode =>
    if !S_ISLNK st_mode then some (1, g)
    else
      match readlink fs g.current (pf.PATH_MAX + 1) with
      | .error e => some (3, { g with next := none, errno := e })
      | .ok buf =>
        let rl_ret := buf.length
        if rl_ret = pf.PATH_MAX + 1 then
          some (3, { g with next := none, errno := ENAMETOOLONG })
        else
          let next := buf
          -- memcpy (dir, current, strlen (current) + 1) into PATH_MAX + 1 bytes
          if pf.PATH_MAX + 1 < g.current.length + 1 then none
          else
            let dir := dirname g.current
            -- memcpy (old_dir, dir, strlen (dir) + 1) when dirname returned static storage
            if pf.PATH_MAX + 1 < dir.length + 1 then none
            else if next.head? != some '/' then
              let old_next := next
              let r := snprintf pf.PATH_MAX (dir ++ "/".toList ++ old_next)
              if r.2 < 1 then some (3, { g with next := some r.1 })
              else some (find_next_inspect fs g r.1)
            else some (find_next_inspect fs g next)

/-- The function `get_ftype`. -/
def get_ftype (pf : Platform) (fs : FS) (path : CStr) : CStr :=
  match fs.lstat path with
  | .error _ => "unknown file".toList
  | .ok st_mode =>
    let t := st_mode &&& S_IFMT
    if t = S_IFREG then "regular file".toList
    else if t = S_IFSOCK then "socket".toList
    else if t = S_IFCHR then "character device".toList
    else if t = S_IFBLK then "block device".toList
    else if t = S_IFIFO then "named pipe, FIFO".toList
    else if t = S_IFDIR then "directory".toList
    else if t = S_IFLNK then "symbolic link".toList
    else if pf.hasWhiteout && t == S_IFWHT then "whiteout".toList
    else "unknown file".toList

/-- What the program has written so far. -/
structure Out where
  /-- Standard output. -/
  stdout : CStr
  /-- Standard error. -/
  stderr : CStr
deriving DecidableEq

/-- How a run of the loop ends. -/
inductive Result where
  /-- The program exited with this status, having written this. -/
  | exited (code : Nat) (out : Out)
  /-- Undefined behaviour was reached. -/
  | undefined
  /-- The iteration budget of the model ran out. -/
  | timeout
deriving DecidableEq

/-- The `while (1)` loop of `main`, run for at most `fuel` iterations. -/
def main_loop (pf : Platform) (fs : FS) : Nat → Globals → Out → Result
  | 0, _, _ => Result.timeout
  | fuel + 1, g, out =>
    match find_next pf fs g with
    | none => Result.undefined
    | some (status, g) =>
      let g := { g with hops := (g.hops + 1) % (pf.SIZE_MAX + 1) }
      if status = 1 ∨ g.hops ≥ g.max_hops then
        Result.exited EXIT_SUCCESS
          { out with stdout := out.stdout ++ g.current ++ " (".toList
                                 ++ get_ftype pf fs g.current ++ ")\n".toList }
      else if status = 0 then
        match g.next with
        | none => Result.undefined
        | some next =>
          main_loop pf fs fuel { g with current := next }
            { out with stdout := out.stdout ++ g.current ++ " -> ".toList }
      else if status = 2 then
        Result.exited EXIT_FAILURE
          { out with stdout := out.stdout ++ g.current ++ " (nonexistent)\n".toList }
      else if status = 3 then
        Result.exited EXIT_FAILURE
          { stdout := out.stdout ++ g.current ++ " (I/O error)\n".toList
            stderr := out.stderr ++ "Error while tracking ".toList ++ g.current
                        ++ ": ".toList ++ pf.strerror g.errno ++ "\n".toList }
      else
        Result.exited EXIT_FAILURE
          { stdout := out.stdout ++ g.current ++ " (internal error)\n".toList
            stderr := out.stderr ++ "Internal error: wrong find_next() code: ".toList
                        ++ (toString status).toList ++ "\n".toList }

/-- The globals when the loop of `main` is entered: `do_optparse` has stored the path
argument in `current` and the ceiling (`SIZE_MAX` when `-m` is not given) in `max_hops`. -/
def initial (path : CStr) (max_hops : Nat) : Globals :=
  { current := path, next := none, hops := 0, max_hops := max_hops, errno := 0 }

/-- The loop of `main` from its initial state. More than `max_hops` iterations are never
needed (see `run_ne_timeout`). -/
def run (pf : Platform) (fs : FS) (path : CStr) (max_hops : Nat) : Result :=
  main_loop pf fs (max_hops + 1) (initial path max_hops) { stdout := [], stderr := [] }

/-- The path that `find_next` goes on to inspect for a link at `cur` with content
`target` (lines 160-170 of the source): the content itself when it starts with a slash,
otherwise what `snprintf` stored of the directory of `cur`, a slash and the content. -/
def candidate (pf : Platform) (cur target : CStr) : CStr :=
  if target.head? != some '/' then
    (snprintf pf.PATH_MAX (dirname cur ++ "/".toList ++ target)).1
  else target

/-- The strings `get_ftype` can return. -/
def ftypeStrings : List CStr :=
  ["regular file".toList, "socket".toList, "character device".toList,
   "block device".toList, "named pipe, FIFO".toList, "directory".toList,
   "symbolic link".toList, "whiteout".toList, "unknown file".toList]

/-! ## Chains of links -/

/-- The paths `P 0`, ..., `P (L - 1)` are symbolic links, the content of `P i` is the
absolute path `P (i + 1)`, every path fits in `PATH_MAX` characters, and `P L` exists. -/
def Links (pf : Platform) (fs : FS) (P : Nat → CStr) (L : Nat) : Prop :=
  (P 0).length ≤ pf.PATH_MAX ∧
  (∀ i, i < L →
    (∃ m, fs.lstat (P i) = .ok m ∧ S_ISLNK m = true) ∧
    fs.readlink (P i) = .ok (P (i + 1)) ∧
    (P (i + 1)).head? = some '/' ∧
    (P (i + 1)).length ≤ pf.PATH_MAX) ∧
  (∃ m, fs.lstat (P L) = .ok m)

/-- The text `"P k -> P (k+1) -> ... -> P (k+j-1) -> "`: one segment for each of `j`
followed hops, starting at `P k`. -/
def arrows (P : Nat → CStr) : Nat → Nat → CStr
  | _, 0 => []
  | k, j + 1 => P k ++ " -> ".toList ++ arrows P (k + 1) j

/-- The line `"P 0 -> ... -> P n (<type>)"` with its newline. -/
def chainLine (pf : Platform) (fs : FS) (P : Nat → CStr) (n : Nat) : CStr :=
  arrows P 0 n ++ P n ++ " (".toList ++ get_ftype pf fs (P n) ++ ")\n".toList

/-! ## Concrete platforms and filesystems -/

/-- A 64-bit GNU/Linux platform. -/
def linux64 : Platform :=
  { PATH_MAX := 4096, PATH_MAX_pos := by decide,
    SIZE_MAX := 2 ^ 64 - 1, SIZE_MAX_min := by decide,
    hasWhiteout := false, strerror := fun _ => "error".toList }

/-- A 32-bit GNU/Linux platform. -/
def linux32 : Platform :=
  { PATH_MAX := 4096, PATH_MAX_pos := by decide,
    SIZE_MAX := 2 ^ 32 - 1, SIZE_MAX_min := by decide,
    hasWhiteout := false, strerror := fun _ => "error".toList }

/-- Mode of a symbolic link. -/
def modeLnk : Nat := 0o120777
/-- Mode of a regular file. -/
def modeReg : Nat := 0o100644
/-- Mode of a directory. -/
def modeDir : Nat := 0o040755

/-- The filesystem with `/tmp/a -> /tmp/b -> /tmp/c`, the last a regular file. -/
def fsABC : FS :=
  { lstat := fun p =>
      if p = "/tmp/a".toList ∨ p = "/tmp/b".toList then .ok modeLnk
      else if p = "/tmp/c".toList then .ok modeReg
      else .error ENOENT
    readlink := fun p =>
      if p = "/tmp/a".toList then .ok "/tmp/b".toList
      else if p = "/tmp/b".toList then .ok "/tmp/c".toList
      else .error 22 }

/-- The paths of the chain in `fsABC`. -/
def pathABC (i : Nat) : CStr :=
  if i = 0 then "/tmp/a".toList else if i = 1 then "/tmp/b".toList else "/tmp/c".toList

/-- The filesystem with the self-referential link `/tmp/loop -> /tmp/loop`. -/
def fsLoop : FS :=
  { lstat := fun p => if p = "/tmp/loop".toList then .ok modeLnk else .error ENOENT
    readlink := fun p => if p = "/tmp/loop".toList then .ok "/tmp/loop".toList else .error 22 }

/-- The filesystem with the dangling link `/tmp/a -> /tmp/missing`. -/
def fsMissing : FS :=
  { lstat := fun p => if p = "/tmp/a".toList then .ok modeLnk else .error ENOENT
    readlink := fun p => if p = "/tmp/a".toList then .ok "/tmp/missing".toList else .error 22 }

/-- The filesystem with the link `/tmp/sub/link -> ../c`, the directories `/tmp` and
`/tmp/sub`, and the regular file `/tmp/c`, which the kernel also reaches as
`/tmp/sub/../c`. -/
def fsRel : FS :=
  { lstat := fun p =>
      if p = "/tmp/sub/link".toList then .ok modeLnk
      else if p = "/tmp/c".toList ∨ p = "/tmp/sub/../c".toList then .ok modeReg
      else if p = "/tmp".toList ∨ p = "/tmp/sub".toList then .ok modeDir
      else .error ENOENT
    readlink := fun p => if p = "/tmp/sub/link".toList then .ok "../c".toList else .error 22 }

/-- The text `"./"` repeated `n` times. -/
def dots : Nat → CStr
  | 0 => []
  | n + 1 => '.' :: '/' :: dots n

/-- Whether a string is `"./"` repeated. -/
def isDots : CStr → Bool
  | [] => true
  | a :: b :: r => a == '.' && b == '/' && isDots r
  | _ => false

/-- A relative link content of 4095 characters: `"./"` 2046 times, then `abc`. -/
def longTarget : CStr := dots 2046 ++ "abc".toList

/-- The filesystem with the directory `/tmp` (reached also as `/tmp/./`, `/tmp/././`, ...)
and the link `/tmp/l` whose content is `longTarget`. -/
def fsDeep : FS :=
  { lstat := fun p =>
      if p = "/tmp/l".toList then .ok modeLnk
      else if p.take 5 = "/tmp/".toList ∧ isDots (p.drop 5) = true then .ok modeDir
      else .error ENOENT
    readlink := fun p => if p = "/tmp/l".toList then .ok longTarget else .error 22 }

/-- Adds one to a little-endian string of binary digits, keeping its length. -/
def binSucc : CStr → CStr
  | [] => []
  | c :: r => if c = '1' then '0' :: binSucc r else '1' :: r

/-- Value of a little-endian string of binary digits. -/
def binVal : CStr → Nat
  | [] => 0
  | c :: r => (if c = '1' then 1 else 0) + 2 * binVal r

/-- The number `k` as 64 little-endian binary digits. -/
def binRepr : Nat → CStr
  | 0 => List.replicate 64 '0'
  | k + 1 => binSucc (binRepr k)

/-- The path `/<k in binary>`. -/
def counterPath (k : Nat) : CStr := '/' :: binRepr k

/-- A filesystem with a chain of `n` links: the entry `/<k>` is a link to `/<k+1>` for
`k < n`, and `/<n>` is a regular file. -/
def fsCounter (n : Nat) : FS :=
  { lstat := fun p =>
      if p.head? = some '/' ∧ p.tail.length = 64 then
        if binVal p.tail < n then .ok modeLnk
        else if binVal p.tail = n then .ok modeReg
        else .error ENOENT
      else .error ENOENT
    readlink := fun p =>
      if p.head? = some '/' then .ok ('/' :: binSucc p.tail) else .error 22 }

/-! ## Properties of the helpers -/

theorem length_dropWhile_le (p : Char → Bool) (l : CStr) :
    (l.dropWhile p).length ≤ l.length :=
  (List.dropWhile_sublist p).length_le

theorem stripSlashes_length_le (s : CStr) : (stripSlashes s).length ≤ s.length := by
  unfold stripSlashes
  rw [List.length_reverse]
  exact (length_dropWhile_le _ _).trans (by rw [List.length_reverse])

theorem rootOf_length_le (s : CStr) (h : s ≠ []) : (rootOf s).length ≤ s.length := by
  unfold rootOf
  split
  · next h2 => rw [h2]; decide
  · have : 0 < s.length := List.length_pos.mpr h
    simpa using this

/-- The result of `dirname` is never longer than its argument, the one-character
result `"."` apart. -/
theorem dirname_length_le (path : CStr) : (dirname path).length ≤ max path.length 1 := by
  unfold dirname
  simp only
  split
  · split
    · simp
    · next h => exact (rootOf_length_le path h).trans (le_max_left _ _)
  · have hs := stripSlashes_length_le path
    have ht : ((stripSlashes path).reverse.dropWhile (fun c => c != '/')).reverse.length
        ≤ path.length := by
      rw [List.length_reverse]
      exact ((length_dropWhile_le _ _).trans (by rw [List.length_reverse])).trans hs
    split
    · simp
    · next h =>
      split
      · exact ((rootOf_length_le _ h).trans ht).trans (le_max_left _ _)
      · exact ((stripSlashes_length_le _).trans ht).trans (le_max_left _ _)

theorem dirname_fits (pf : Platform) (path : CStr) (h : path.length ≤ pf.PATH_MAX) :
    (dirname path).length ≤ pf.PATH_MAX :=
  (dirname_length_le path).trans (max_le h pf.PATH_MAX_pos)

/-- On a link whose content was read and fits, with `current` itself fitting in `dir`,
`find_next` is the inspection of the candidate. -/
theorem find_next_of_link (pf : Platform) (fs : FS) (g : Globals) (m : Nat) (target : CStr)
    (hl : fs.lstat g.current = .ok m) (hs : S_ISLNK m = true)
    (hr : fs.readlink g.current = .ok target)
    (ht : target.length ≤ pf.PATH_MAX) (hc : g.current.length ≤ pf.PATH_MAX) :
    find_next pf fs g = some (find_next_inspect fs g (candidate pf g.current target)) := by
  have hd := dirname_fits pf g.current hc
  have htake : target.take (pf.PATH_MAX + 1) = target :=
    List.take_of_length_le (by omega)
  have hne : ¬ target.length = pf.PATH_MAX + 1 := by omega
  have h1 : ¬ (pf.PATH_MAX + 1 < g.current.length + 1) := by omega
  have h2 : ¬ (pf.PATH_MAX + 1 < (dirname g.current).length + 1) := by omega
  unfold find_next
  rw [hl]
  simp only [hs, readlink, hr, htake, hne, h1, h2, candidate, snprintf]
  simp
  split <;> rfl

/-! ## Single hop -/

/-- `find_next` never changes `current`, `hops` or `max_hops`. -/
theorem find_next_keeps (pf : Platform) (fs : FS) (g g1 : Globals) (status : Int)
    (h : find_next pf fs g = some (status, g1)) :
    g1.current = g.current ∧ g1.hops = g.hops ∧ g1.max_hops = g.max_hops := by
  unfold find_next at h
  unfold find_next_inspect at h
  simp only at h
  repeat' split at h
  all_goals first
    | (simp only [Option.some.injEq, Prod.mk.injEq] at h
       obtain ⟨_, rfl⟩ := h
       exact ⟨rfl, rfl, rfl⟩)
    | (exact absurd h (by simp))

/-- On anything that `lstat` can inspect and that is not a symbolic link, `find_next`
returns 1 and changes nothing. -/
theorem find_next_of_not_link (pf : Platform) (fs : FS) (g : Globals) (m : Nat)
    (hl : fs.lstat g.current = .ok m) (hs : S_ISLNK m = false) :
    find_next pf fs g = some (1, g) := by
  unfold find_next
  rw [hl]
  simp [hs]

/-- C2. When `lstat` of the current path succeeds and reports something other than a
symbolic link, `find_next` returns 1 and leaves the current path (indeed every global)
unchanged, so a second call on the same filesystem returns 1 again. -/
theorem C2_terminal_is_stable (pf : Platform) (fs : FS) (g : Globals) (m : Nat)
    (hl : fs.lstat g.current = .ok m) (hs : S_ISLNK m = false) :
    find_next pf fs g = some (1, g) ∧
    (find_next pf fs g).bind (fun r => find_next pf fs r.2) = some (1, g) := by
  have h := find_next_of_not_link pf fs g m hl hs
  exact ⟨h, by rw [h]; exact h⟩

/-- The regular file `/tmp/c` of `fsABC`: `find_next` returns 1 and changes nothing. -/
theorem C2_terminal_is_stable_witness :
    fsABC.lstat (initial "/tmp/c".toList 7).current = .ok modeReg ∧
    S_ISLNK modeReg = false ∧
    find_next linux64 fsABC (initial "/tmp/c".toList 7)
      = some (1, initial "/tmp/c".toList 7) :=
  ⟨rfl, by decide,
   (C2_terminal_is_stable linux64 fsABC (initial "/tmp/c".toList 7) modeReg
      rfl (by decide)).1⟩

theorem find_next_inspect_ne_one (fs : FS) (g : Globals) (next : CStr) :
    (find_next_inspect fs g next).1 ≠ 1 := by
  unfold find_next_inspect
  repeat' split
  all_goals simp

/-- On a symbolic link `find_next` does not return 1. -/
theorem find_next_link_ne_one (pf : Platform) (fs : FS) (g : Globals) (m : Nat)
    (hl : fs.lstat g.current = .ok m) (hs : S_ISLNK m = true) :
    (find_next pf fs g).map Prod.fst ≠ some 1 := by
  unfold find_next
  rw [hl]
  simp only [hs, Bool.not_true, Bool.false_eq_true, if_false]
  repeat' split
  all_goals first
    | (simp only [Option.map_some', ne_eq, Option.some.injEq]
       exact find_next_inspect_ne_one _ _ _)
    | simp

/-- The type string is `"symbolic link"` exactly for the modes that `S_ISLNK` accepts. -/
theorem get_ftype_link_iff (pf : Platform) (fs : FS) (path : CStr) (m : Nat)
    (hl : fs.lstat path = .ok m) :
    get_ftype pf fs path = "symbolic link".toList ↔ S_ISLNK m = true := by
  unfold get_ftype S_ISLNK
  rw [hl]
  simp only [beq_iff_eq]
  constructor
  · intro h
    by_contra hne
    repeat' split at h
    all_goals first
      | exact hne (by assumption)
      | exact absurd h (by decide)
  · intro h
    simp [h, S_IFSOCK, S_IFREG, S_IFCHR, S_IFBLK, S_IFIFO, S_IFDIR, S_IFLNK]

/-- C10. `get_ftype` always returns one of the nine fixed strings: `"unknown file"` when
`lstat` fails, otherwise the string of the file-type bits (the whiteout case where the
platform has it, and `"unknown file"` for any other value); and for a path that
`lstat` can inspect it returns `"symbolic link"` exactly when `find_next` does not
return 1. -/
theorem C10_get_ftype_table (pf : Platform) (fs : FS) (path : CStr) :
    get_ftype pf fs path ∈ ftypeStrings ∧
    (∀ e, fs.lstat path = .error e → get_ftype pf fs path = "unknown file".toList) ∧
    (∀ m, fs.lstat path = .ok m →
      (m &&& S_IFMT = S_IFREG → get_ftype pf fs path = "regular file".toList) ∧
      (m &&& S_IFMT = S_IFSOCK → get_ftype pf fs path = "socket".toList) ∧
      (m &&& S_IFMT = S_IFCHR → get_ftype pf fs path = "character device".toList) ∧
      (m &&& S_IFMT = S_IFBLK → get_ftype pf fs path = "block device".toList) ∧
      (m &&& S_IFMT = S_IFIFO → get_ftype pf fs path = "named pipe, FIFO".toList) ∧
      (m &&& S_IFMT = S_IFDIR → get_ftype pf fs path = "directory".toList) ∧
      (m &&& S_IFMT = S_IFLNK → get_ftype pf fs path = "symbolic link".toList) ∧
      (pf.hasWhiteout = true → m &&& S_IFMT = S_IFWHT →
        get_ftype pf fs path = "whiteout".toList) ∧
      (m &&& S_IFMT ∉ [S_IFREG, S_IFSOCK, S_IFCHR, S_IFBLK, S_IFIFO, S_IFDIR, S_IFLNK] →
        ¬ (pf.hasWhiteout = true ∧ m &&& S_IFMT = S_IFWHT) →
        get_ftype pf fs path = "unknown file".toList) ∧
      (∀ g : Globals, g.current = path →
        (get_ftype pf fs path = "symbolic link".toList ↔
          (find_next pf fs g).map Prod.fst ≠ some 1))) := by
  refine ⟨?_, ?_, ?_⟩
  · unfold get_ftype
    simp only
    repeat' split
    all_goals simp [ftypeStrings]
  · intro e he
    simp [get_ftype, he]
  · intro m hm
    refine ⟨?_, ?_, ?_, ?_, ?_, ?_, ?_, ?_, ?_, ?_⟩
    · intro h; simp [get_ftype, hm, h]
    · intro h; simp [get_ftype, hm, h, S_IFSOCK, S_IFREG]
    · intro h; simp [get_ftype, hm, h, S_IFSOCK, S_IFREG, S_IFCHR]
    · intro h; simp [get_ftype, hm, h, S_IFSOCK, S_IFREG, S_IFCHR, S_IFBLK]
    · intro h; simp [get_ftype, hm, h, S_IFSOCK, S_IFREG, S_IFCHR, S_IFBLK, S_IFIFO]
    · intro h; simp [get_ftype, hm, h, S_IFSOCK, S_IFREG, S_IFCHR, S_IFBLK, S_IFIFO, S_IFDIR]
    · intro h
      simp [get_ftype, hm, h, S_IFSOCK, S_IFREG, S_IFCHR, S_IFBLK, S_IFIFO, S_IFDIR, S_IFLNK]
    · intro hw h
      simp [get_ftype, hm, h, hw, S_IFSOCK, S_IFREG, S_IFCHR, S_IFBLK, S_IFIFO, S_IFDIR,
        S_IFLNK, S_IFWHT]
    · intro h hw
      simp only [List.mem_cons, List.mem_singleton, List.not_mem_nil, or_false,
        not_or] at h
      obtain ⟨h1, h2, h3, h4, h5, h6, h7⟩ := h
      simp only [get_ftype, hm, h1, h2, h3, h4, h5, h6, h7, if_false]
      by_cases hb : pf.hasWhiteout = true
      · have : ¬ (m &&& S_IFMT = S_IFWHT) := fun h => hw ⟨hb, h⟩
        simp [hb, this]
      · simp [hb]
    · intro g hg
      subst hg
      rw [get_ftype_link_iff pf fs g.current m hm]
      constructor
      · exact find_next_link_ne_one pf fs g m hm
      · intro h
        by_contra hs
        have hs2 : S_ISLNK m = false := by simpa using hs
        exact h (by unfold find_next; rw [hm]; simp [hs2])

/-- C3. For a symbolic link whose content was read (and fits the buffers), the code
returned by `find_next` is decided by `lstat` of the candidate next path: 2 when it
fails with `ENOENT`, 3 when it fails with any other error, and 0 exactly when it
succeeds. -/
theorem C3_inspect_decides_code (pf : Platform) (fs : FS) (g : Globals) (m : Nat)
    (target : CStr)
    (hl : fs.lstat g.current = .ok m) (hs : S_ISLNK m = true)
    (hr : fs.readlink g.current = .ok target)
    (ht : target.length ≤ pf.PATH_MAX) (hc : g.current.length ≤ pf.PATH_MAX) :
    (fs.lstat (candidate pf g.current target) = .error ENOENT →
      (find_next pf fs g).map Prod.fst = some 2) ∧
    (∀ e, e ≠ ENOENT → fs.lstat (candidate pf g.current target) = .error e →
      (find_next pf fs g).map Prod.fst = some 3) ∧
    ((find_next pf fs g).map Prod.fst = some 0 ↔
      ∃ m1, fs.lstat (candidate pf g.current target) = .ok m1) := by
  rw [find_next_of_link pf fs g m target hl hs hr ht hc]
  unfold find_next_inspect
  refine ⟨?_, ?_, ?_⟩
  · intro h
    rw [h]
    simp
  · intro e he h
    rw [h]
    simp [he]
  · constructor
    · intro h
      split at h
      · split at h <;> simp at h
      · next a heq => exact ⟨a, heq⟩
    · rintro ⟨m1, h⟩
      rw [h]
      simp

/-- The dangling link `/tmp/a` of `fsMissing`: the candidate `/tmp/missing` does not
exist and `find_next` returns 2. -/
theorem C3_inspect_decides_code_witness :
    (find_next linux64 fsMissing (initial "/tmp/a".toList 9)).map Prod.fst = some 2 :=
  (C3_inspect_decides_code linux64 fsMissing (initial "/tmp/a".toList 9) modeLnk
    "/tmp/missing".toList rfl (by decide) rfl (by decide) (by decide)).1 rfl

/-- C1, amended. For a symbolic link at a path of at most `PATH_MAX` characters whose
content `T` has at most `PATH_MAX` characters and, when `T` is relative, whose join
`dirname(P) + "/" + T` is shorter than `PATH_MAX`: the candidate next path is `T` itself
when `T` begins with a slash and the join when it does not, and whenever `lstat` of that
candidate succeeds `find_next` returns 0 with `next` equal to it. -/
theorem C1_candidate_followed (pf : Platform) (fs : FS) (g : Globals) (m : Nat)
    (target : CStr)
    (hl : fs.lstat g.current = .ok m) (hs : S_ISLNK m = true)
    (hr : fs.readlink g.current = .ok target)
    (ht : target.length ≤ pf.PATH_MAX) (hc : g.current.length ≤ pf.PATH_MAX)
    (hj : target.head? ≠ some '/' →
      (dirname g.current ++ "/".toList ++ target).length < pf.PATH_MAX) :
    candidate pf g.current target
      = (if target.head? = some '/' then target
         else dirname g.current ++ "/".toList ++ target) ∧
    ∀ m1, fs.lstat (candidate pf g.current target) = .ok m1 →
      find_next pf fs g
        = some (0, { g with next := some (candidate pf g.current target) }) := by
  constructor
  · unfold candidate snprintf
    by_cases h : target.head? = some '/'
    · simp [h]
    · have := hj h
      simp only [bne_iff_ne, ne_eq, h, not_false_eq_true, if_true, if_false]
      exact List.take_of_length_le (by omega)
  · intro m1 h
    rw [find_next_of_link pf fs g m target hl hs hr ht hc]
    unfold find_next_inspect
    rw [h]

/-- The link `/tmp/sub/link -> ../c` of `fsRel`: the candidate is `/tmp/sub/../c`, it
exists, and `find_next` returns 0 with it in `next`. -/
theorem C1_candidate_followed_witness :
    candidate linux64 (initial "/tmp/sub/link".toList 9).current "../c".toList
      = "/tmp/sub/../c".toList ∧
    find_next linux64 fsRel (initial "/tmp/sub/link".toList 9)
      = some (0, { initial "/tmp/sub/link".toList 9 with
                   next := some "/tmp/sub/../c".toList }) := by
  have h := C1_candidate_followed linux64 fsRel (initial "/tmp/sub/link".toList 9) modeLnk
    "../c".toList rfl (by decide) rfl (by decide) (by decide) (fun _ => by decide)
  have hc : candidate linux64 (initial "/tmp/sub/link".toList 9).current "../c".toList
      = "/tmp/sub/../c".toList := by decide
  refine ⟨hc, ?_⟩
  have h2 := h.2 modeReg (by rw [hc]; rfl)
  rw [hc] at h2
  exact h2

/-! ## The over-long join -/

theorem dots_length (n : Nat) : (dots n).length = 2 * n := by
  induction n with
  | zero => rfl
  | succ n ih => simp [dots, ih]; omega

theorem isDots_dots (n : Nat) : isDots (dots n) = true := by
  induction n with
  | zero => rfl
  | succ n ih => simp [dots, isDots, ih]

theorem dots_succ_end (n : Nat) : dots (n + 1) = dots n ++ "./".toList := by
  induction n with
  | zero => rfl
  | succ n ih =>
    calc dots (n + 1 + 1) = '.' :: '/' :: dots (n + 1) := rfl
      _ = '.' :: '/' :: (dots n ++ "./".toList) := by rw [ih]
      _ = dots (n + 1) ++ "./".toList := rfl

theorem longTarget_length : longTarget.length = 4095 := by
  simp [longTarget, dots_length]

theorem longTarget_head : longTarget.head? = some '.' := by
  have h : dots 2046 = '.' :: '/' :: dots 2045 := rfl
  simp [longTarget, h]

theorem dirname_tmp_l : dirname "/tmp/l".toList = "/tmp".toList := by decide

theorem join_deep_length :
    (dirname "/tmp/l".toList ++ "/".toList ++ longTarget).length = 4100 := by
  rw [dirname_tmp_l, List.length_append, longTarget_length]
  rfl

/-- What `snprintf` keeps of the 4100 characters of the join: the first 4095. -/
theorem candidate_deep :
    candidate linux64 "/tmp/l".toList longTarget = "/tmp/".toList ++ dots 2045 := by
  have hsplit : dirname "/tmp/l".toList ++ "/".toList ++ longTarget
      = ("/tmp/".toList ++ dots 2045) ++ "./abc".toList := by
    rw [dirname_tmp_l, longTarget, dots_succ_end 2045]
    simp
  have hlen : ("/tmp/".toList ++ dots 2045).length = linux64.PATH_MAX - 1 := by
    rw [List.length_append, dots_length]
    rfl
  unfold candidate snprintf
  simp only [longTarget_head]
  rw [if_pos (by decide), hsplit]
  exact List.take_left' hlen

theorem fsDeep_lstat_dots (n : Nat) :
    fsDeep.lstat ("/tmp/".toList ++ dots (n + 1)) = .ok modeDir := by
  have h1 : ¬ ("/tmp/".toList ++ dots (n + 1) = "/tmp/l".toList) := by
    simp [dots]
  have h2 : ("/tmp/".toList ++ dots (n + 1)).take 5 = "/tmp/".toList := by
    simp
  have h3 : ("/tmp/".toList ++ dots (n + 1)).drop 5 = dots (n + 1) := by
    simp
  simp only [fsDeep, h1, h2, h3, isDots_dots, if_false, and_self, if_true]

/-- On `/tmp/l` in `fsDeep`, `find_next` returns 0 with the shortened join in `next`. -/
theorem find_next_deep (M : Nat) :
    find_next linux64 fsDeep (initial "/tmp/l".toList M)
      = some (0, { initial "/tmp/l".toList M with
                   next := some ("/tmp/".toList ++ dots 2045) }) := by
  rw [find_next_of_link linux64 fsDeep (initial "/tmp/l".toList M) modeLnk longTarget rfl
    (by decide) rfl (by rw [longTarget_length]; decide)
    (show "/tmp/l".toList.length ≤ linux64.PATH_MAX by decide)]
  show some (find_next_inspect fsDeep _ (candidate linux64 "/tmp/l".toList longTarget)) = _
  rw [candidate_deep]
  unfold find_next_inspect
  rw [fsDeep_lstat_dots 2044]

/-- C8 (the code at the failing input). The link `/tmp/l` has a relative content of 4095
characters, so that the join has 4100, more than `PATH_MAX = 4096`; `find_next` does not
return 3 but inspects the first 4095 characters of the join, the directory
`/tmp/./ ... ./`, and returns 0 with that shortened path in `next`. -/
theorem C8_join_silently_truncated :
    fsDeep.lstat "/tmp/l".toList = .ok modeLnk ∧
    fsDeep.readlink "/tmp/l".toList = .ok longTarget ∧
    longTarget.head? ≠ some '/' ∧
    linux64.PATH_MAX < (dirname "/tmp/l".toList ++ "/".toList ++ longTarget).length ∧
    find_next linux64 fsDeep (initial "/tmp/l".toList linux64.SIZE_MAX)
      = some (0, { initial "/tmp/l".toList linux64.SIZE_MAX with
                   next := some ("/tmp/".toList ++ dots 2045) }) := by
  refine ⟨rfl, rfl, by rw [longTarget_head]; decide, ?_, ?_⟩
  · rw [join_deep_length]; decide
  · exact find_next_deep linux64.SIZE_MAX

/-- C1, as stated, fails: `/tmp/l` is a symbolic link whose relative content is shorter
than `PATH_MAX`, yet the candidate that `find_next` computes is not
`dirname(P) + "/" + T` (it is its first 4095 characters), and `find_next` returns 0
with a `next` that is not the join. -/
theorem C1_counterexample :
    fsDeep.lstat "/tmp/l".toList = .ok modeLnk ∧ S_ISLNK modeLnk = true ∧
    fsDeep.readlink "/tmp/l".toList = .ok longTarget ∧
    longTarget.length < linux64.PATH_MAX ∧
    longTarget.head? ≠ some '/' ∧
    candidate linux64 "/tmp/l".toList longTarget
      ≠ dirname "/tmp/l".toList ++ "/".toList ++ longTarget ∧
    ∃ g1, find_next linux64 fsDeep (initial "/tmp/l".toList linux64.SIZE_MAX) = some (0, g1) ∧
      g1.next ≠ some (dirname "/tmp/l".toList ++ "/".toList ++ longTarget) := by
  have hne : "/tmp/".toList ++ dots 2045
      ≠ dirname "/tmp/l".toList ++ "/".toList ++ longTarget := by
    intro h
    have hl := congrArg List.length h
    rw [join_deep_length, List.length_append, dots_length] at hl
    exact absurd hl (by decide)
  refine ⟨rfl, by decide, rfl, by rw [longTarget_length]; decide,
    by rw [longTarget_head]; decide, by rw [candidate_deep]; exact hne, ?_⟩
  refine ⟨{ initial "/tmp/l".toList linux64.SIZE_MAX with
            next := some ("/tmp/".toList ++ dots 2045) }, ?_, ?_⟩
  · exact find_next_deep linux64.SIZE_MAX
  · intro h
    exact hne (Option.some.inj h)

/-! ## The loop of `main` -/

/-- An iteration in which `find_next` returns 1 ends the run with the terminal line. -/
theorem main_loop_terminal (pf : Platform) (fs : FS) (g g1 : Globals) (fuel : Nat) (out : Out)
    (h : find_next pf fs g = some (1, g1)) :
    main_loop pf fs (fuel + 1) g out
      = Result.exited EXIT_SUCCESS
          ⟨out.stdout ++ g.current ++ " (".toList ++ get_ftype pf fs g.current
             ++ ")\n".toList, out.stderr⟩ := by
  have hk := (find_next_keeps pf fs g g1 1 h).1
  simp [main_loop, h, hk]

/-- An iteration that brings `hops` to `max_hops` ends the run with the terminal line,
whatever `find_next` returned. -/
theorem main_loop_ceiling (pf : Platform) (fs : FS) (g g1 : Globals) (status : Int)
    (fuel : Nat) (out : Out)
    (h : find_next pf fs g = some (status, g1))
    (hh : g.hops + 1 = g.max_hops) (hM : g.max_hops ≤ pf.SIZE_MAX) :
    main_loop pf fs (fuel + 1) g out
      = Result.exited EXIT_SUCCESS
          ⟨out.stdout ++ g.current ++ " (".toList ++ get_ftype pf fs g.current
             ++ ")\n".toList, out.stderr⟩ := by
  obtain ⟨hc, hh1, hm1⟩ := find_next_keeps pf fs g g1 status h
  have hmod : (g.hops + 1) % (pf.SIZE_MAX + 1) = g.hops + 1 :=
    Nat.mod_eq_of_lt (by omega)
  have hge : g1.max_hops ≤ g.hops + 1 := by omega
  simp [main_loop, h, hc, hh1, hmod, hge]

/-- An iteration in which `find_next` returns 0 below the ceiling prints the current
path with an arrow and goes on with `next` as the current path. -/
theorem main_loop_follow (pf : Platform) (fs : FS) (g : Globals) (nx : CStr)
    (fuel : Nat) (out : Out)
    (h : find_next pf fs g = some (0, { g with next := some nx }))
    (hh : g.hops + 1 < g.max_hops) (hM : g.max_hops ≤ pf.SIZE_MAX) :
    main_loop pf fs (fuel + 1) g out
      = main_loop pf fs fuel
          { g with current := nx, next := some nx, hops := g.hops + 1 }
          ⟨out.stdout ++ g.current ++ " -> ".toList, out.stderr⟩ := by
  have hmod : (g.hops + 1) % (pf.SIZE_MAX + 1) = g.hops + 1 :=
    Nat.mod_eq_of_lt (by omega)
  have hlt : ¬ g.max_hops ≤ g.hops + 1 := by omega
  simp [main_loop, h, hmod, hlt]

/-- An iteration below the ceiling in which `find_next` returns 2 reports the current
path as nonexistent and fails. -/
theorem main_loop_missing (pf : Platform) (fs : FS) (g g1 : Globals) (fuel : Nat) (out : Out)
    (h : find_next pf fs g = some (2, g1))
    (hh : g.hops + 1 < g.max_hops) (hM : g.max_hops ≤ pf.SIZE_MAX) :
    main_loop pf fs (fuel + 1) g out
      = Result.exited EXIT_FAILURE
          ⟨out.stdout ++ g.current ++ " (nonexistent)\n".toList, out.stderr⟩ := by
  obtain ⟨hc, hh1, hm1⟩ := find_next_keeps pf fs g g1 2 h
  have hmod : (g.hops + 1) % (pf.SIZE_MAX + 1) = g.hops + 1 :=
    Nat.mod_eq_of_lt (by omega)
  have hlt : ¬ g.max_hops ≤ g.hops + 1 := by omega
  simp [main_loop, h, hc, hh1, hm1, hmod, hlt]

/-- An iteration below the ceiling in which `find_next` returns 3 reports an I/O error
on both streams and fails. -/
theorem main_loop_failed (pf : Platform) (fs : FS) (g g1 : Globals) (fuel : Nat) (out : Out)
    (h : find_next pf fs g = some (3, g1))
    (hh : g.hops + 1 < g.max_hops) (hM : g.max_hops ≤ pf.SIZE_MAX) :
    main_loop pf fs (fuel + 1) g out
      = Result.exited EXIT_FAILURE
          ⟨out.stdout ++ g.current ++ " (I/O error)\n".toList,
           out.stderr ++ "Error while tracking ".toList ++ g.current ++ ": ".toList
             ++ pf.strerror g1.errno ++ "\n".toList⟩ := by
  obtain ⟨hc, hh1, hm1⟩ := find_next_keeps pf fs g g1 3 h
  have hmod : (g.hops + 1) % (pf.SIZE_MAX + 1) = g.hops + 1 :=
    Nat.mod_eq_of_lt (by omega)
  have hlt : ¬ g.max_hops ≤ g.hops + 1 := by omega
  simp [main_loop, h, hc, hh1, hm1, hmod, hlt]

theorem links_length (pf : Platform) (fs : FS) (P : Nat → CStr) (L : Nat)
    (hL : Links pf fs P L) (k : Nat) (hk : k ≤ L) : (P k).length ≤ pf.PATH_MAX := by
  cases k with
  | zero => exact hL.1
  | succ k => exact (hL.2.1 k (by omega)).2.2.2

theorem links_exists (pf : Platform) (fs : FS) (P : Nat → CStr) (L : Nat)
    (hL : Links pf fs P L) (k : Nat) (hk : k ≤ L) : ∃ m, fs.lstat (P k) = .ok m := by
  rcases Nat.lt_or_ge k L with h | h
  · obtain ⟨⟨m, hm, _⟩, _⟩ := hL.2.1 k h
    exact ⟨m, hm⟩
  · have : k = L := by omega
    subst this
    exact hL.2.2

/-- On a link of a chain, `find_next` returns 0 with the next path of the chain. -/
theorem find_next_on_chain (pf : Platform) (fs : FS) (P : Nat → CStr) (L : Nat)
    (hL : Links pf fs P L) (k : Nat) (hk : k < L) (g : Globals) (hg : g.current = P k) :
    find_next pf fs g = some (0, { g with next := some (P (k + 1)) }) := by
  obtain ⟨⟨m, hm, hs⟩, hr, hh, hlen⟩ := hL.2.1 k hk
  obtain ⟨m1, hm1⟩ := links_exists pf fs P L hL (k + 1) (by omega)
  have hc : g.current.length ≤ pf.PATH_MAX := by
    rw [hg]; exact links_length pf fs P L hL k (by omega)
  rw [find_next_of_link pf fs g m (P (k + 1)) (by rw [hg]; exact hm) hs
    (by rw [hg]; exact hr) hlen hc]
  have hcand : candidate pf g.current (P (k + 1)) = P (k + 1) := by
    simp [candidate, hh]
  rw [hcand]
  simp [find_next_inspect, hm1]

/-- Following `j` links of a chain below the ceiling prints their `j` segments. -/
theorem main_loop_follows (pf : Platform) (fs : FS) (P : Nat → CStr) (L M : Nat)
    (hL : Links pf fs P L) (hM : M ≤ pf.SIZE_MAX) :
    ∀ (j k : Nat) (g : Globals), g.current = P k → g.hops = k → g.max_hops = M →
      k + j ≤ L → k + j < M →
      ∃ g1 : Globals, g1.current = P (k + j) ∧ g1.hops = k + j ∧ g1.max_hops = M ∧
        ∀ (fuel : Nat) (out : Out),
          main_loop pf fs (fuel + j) g out
            = main_loop pf fs fuel g1 ⟨out.stdout ++ arrows P k j, out.stderr⟩ := by
  intro j
  induction j with
  | zero =>
    intro k g hc hh hm _ _
    exact ⟨g, hc, hh, hm, fun fuel out => by simp [arrows]⟩
  | succ j ih =>
    intro k g hc hh hm hkL hkM
    have hf := find_next_on_chain pf fs P L hL k (by omega) g hc
    obtain ⟨g1, h1, h2, h3, h4⟩ := ih (k + 1)
      { g with current := P (k + 1), next := some (P (k + 1)), hops := g.hops + 1 }
      rfl (by simp [hh]) hm (by omega) (by omega)
    refine ⟨g1, by rw [h1]; congr 1; omega, by omega, h3, ?_⟩
    intro fuel out
    have hstep := main_loop_follow pf fs g (P (k + 1)) (fuel + j) out hf
      (by omega) (by omega)
    rw [show fuel + (j + 1) = fuel + j + 1 by omega, hstep, h4]
    simp [arrows, hc]

/-- A chain of `n` links that ends in something other than a link, run with a ceiling
above `n`: the whole chain is printed and the run ends successfully. -/
theorem run_chain_terminal (pf : Platform) (fs : FS) (P : Nat → CStr) (n M m : Nat)
    (hL : Links pf fs P n) (hm : fs.lstat (P n) = .ok m) (hs : S_ISLNK m = false)
    (hn : n < M) (hM : M ≤ pf.SIZE_MAX) :
    run pf fs (P 0) M = Result.exited EXIT_SUCCESS ⟨chainLine pf fs P n, []⟩ := by
  obtain ⟨g1, h1, _, _, h4⟩ := main_loop_follows pf fs P n M hL hM n 0 (initial (P 0) M)
    rfl rfl rfl (by omega) (by omega)
  have hterm : find_next pf fs g1 = some (1, g1) :=
    find_next_of_not_link pf fs g1 m (by rw [h1]; simpa using hm) hs
  unfold run
  rw [show M + 1 = (M - n) + 1 + n by omega, h4, main_loop_terminal pf fs g1 g1 _ _ hterm]
  simp [chainLine, h1]

/-- A chain of at least `M` links run with the ceiling `M`: the run stops at the `M`-th
call of `find_next`, having printed `M - 1` segments, with the terminal line of the
path reached after `M - 1` hops. -/
theorem run_chain_ceiling (pf : Platform) (fs : FS) (P : Nat → CStr) (L M : Nat)
    (hL : Links pf fs P L) (h0 : 0 < M) (hML : M ≤ L) (hM : M ≤ pf.SIZE_MAX) :
    run pf fs (P 0) M = Result.exited EXIT_SUCCESS ⟨chainLine pf fs P (M - 1), []⟩ := by
  obtain ⟨g1, h1, h2, h3, h4⟩ := main_loop_follows pf fs P L M hL hM (M - 1) 0
    (initial (P 0) M) rfl rfl rfl (by omega) (by omega)
  have hf := find_next_on_chain pf fs P L hL (0 + (M - 1)) (by omega) g1 h1
  unfold run
  rw [show M + 1 = 1 + 1 + (M - 1) by omega, h4,
    main_loop_ceiling pf fs g1 _ 0 _ _ hf (by omega) (by omega)]
  simp [chainLine, h1]

/-- The loop of `main` always ends: from a state below the ceiling, `max_hops - hops`
iterations (at least one) are enough. -/
theorem main_loop_ne_timeout (pf : Platform) (fs : FS) :
    ∀ (fuel : Nat) (g : Globals) (out : Out), g.max_hops ≤ pf.SIZE_MAX →
      (g.hops < g.max_hops ∨ g.max_hops = 0) → 0 < fuel → g.max_hops ≤ g.hops + fuel →
      main_loop pf fs fuel g out ≠ Result.timeout := by
  intro fuel
  induction fuel with
  | zero =>
    intro g out _ _ h2 _
    omega
  | succ fuel ih =>
    intro g out hM h1 _ h3
    unfold main_loop
    cases hf : find_next pf fs g with
    | none => simp
    | some r =>
      obtain ⟨status, g1⟩ := r
      obtain ⟨hc, hh, hm⟩ := find_next_keeps pf fs g g1 status hf
      simp only
      split
      · simp
      · next hcond =>
        simp only [not_or, ge_iff_le, not_le, hh, hm] at hcond
        have hlt : g.hops < g.max_hops := by
          rcases h1 with h | h
          · exact h
          · rw [h] at hcond
            omega
        have hmod : (g.hops + 1) % (pf.SIZE_MAX + 1) = g.hops + 1 :=
          Nat.mod_eq_of_lt (by omega)
        rw [hmod] at hcond
        split
        · split
          · simp
          · apply ih
            · simpa [hm] using hM
            · left; simpa [hmod, hh, hm] using hcond.2
            · omega
            · simp only [hmod, hm, hh]; omega
        · repeat' split
          all_goals simp

theorem run_ne_timeout (pf : Platform) (fs : FS) (path : CStr) (M : Nat)
    (hM : M ≤ pf.SIZE_MAX) : run pf fs path M ≠ Result.timeout := by
  unfold run
  apply main_loop_ne_timeout pf fs _ _ _ hM
  · simp only [initial]; omega
  · omega
  · simp only [initial]; omega

/-! ## The chain of the counter filesystem -/

theorem binSucc_length (s : CStr) : (binSucc s).length = s.length := by
  induction s with
  | nil => rfl
  | cons c r ih =>
    unfold binSucc
    split <;> simp [ih]

theorem binRepr_length (k : Nat) : (binRepr k).length = 64 := by
  induction k with
  | zero => simp [binRepr]
  | succ k ih => simp [binRepr, binSucc_length, ih]

theorem binVal_binSucc (s : CStr) (h : binVal s + 1 < 2 ^ s.length) :
    binVal (binSucc s) = binVal s + 1 := by
  induction s with
  | nil => simp [binVal] at h
  | cons c r ih =>
    unfold binSucc
    by_cases hc : c = '1'
    · have h01 : ¬ ('0' : Char) = '1' := by decide
      simp only [hc, if_true, binVal, List.length_cons, pow_succ, h01, if_false] at h ⊢
      have := ih (by omega)
      omega
    · simp only [hc, if_false, binVal, if_true]
      omega

theorem binVal_binRepr (k : Nat) (h : k < 2 ^ 64) : binVal (binRepr k) = k := by
  induction k with
  | zero => decide
  | succ k ih =>
    have hk := ih (by omega)
    show binVal (binSucc (binRepr k)) = k + 1
    rw [binVal_binSucc _ (by rw [binRepr_length, hk]; exact h), hk]

theorem fsCounter_lstat (N k : Nat) (h : k < 2 ^ 64) :
    (fsCounter N).lstat (counterPath k)
      = if k < N then .ok modeLnk else if k = N then .ok modeReg else .error ENOENT := by
  simp [fsCounter, counterPath, binRepr_length, binVal_binRepr k h]

/-- The counter filesystem holds a chain of `N` links that ends in a regular file. -/
theorem links_counter (pf : Platform) (N : Nat) (hN : N < 2 ^ 64) (hp : 65 ≤ pf.PATH_MAX) :
    Links pf (fsCounter N) counterPath N := by
  refine ⟨?_, ?_, ?_⟩
  · simp [counterPath, binRepr_length]; omega
  · intro i hi
    refine ⟨⟨modeLnk, ?_, by decide⟩, ?_, ?_, ?_⟩
    · rw [fsCounter_lstat N i (by omega), if_pos hi]
    · simp [fsCounter, counterPath, binRepr]
    · simp [counterPath]
    · simp [counterPath, binRepr_length]; omega
  · exact ⟨modeReg, by rw [fsCounter_lstat N N hN]; simp⟩

/-- The terminal line of a link and that of a regular file differ. -/
theorem chainLine_ne (pf : Platform) (fs : FS) (P : Nat → CStr) (a b : Nat)
    (ha : fs.lstat (P a) = .ok modeLnk) (hb : fs.lstat (P b) = .ok modeReg) :
    chainLine pf fs P a ≠ chainLine pf fs P b := by
  intro h
  have hfa : get_ftype pf fs (P a) = "symbolic link".toList := by
    rw [get_ftype_link_iff pf fs (P a) modeLnk ha]; decide
  have hfb : get_ftype pf fs (P b) = "regular file".toList := by
    simp only [get_ftype, hb]
    exact if_pos (by decide)
  have h3 := congrArg (fun l => l.reverse.take 3) h
  simp [chainLine, hfa, hfb] at h3

/-- With as many links as the ceiling allows calls, the counter chain is cut short. -/
theorem counter_chain_cut (pf : Platform) (N : Nat) (h0 : 0 < N) (hN : N < 2 ^ 64)
    (hS : N ≤ pf.SIZE_MAX) (hp : 65 ≤ pf.PATH_MAX) :
    Links pf (fsCounter N) counterPath N ∧
    (fsCounter N).lstat (counterPath N) = .ok modeReg ∧
    S_ISLNK modeReg = false ∧
    run pf (fsCounter N) (counterPath 0) N
      ≠ Result.exited EXIT_SUCCESS ⟨chainLine pf (fsCounter N) counterPath N, []⟩ := by
  have hL := links_counter pf N hN hp
  have hreg : (fsCounter N).lstat (counterPath N) = .ok modeReg := by
    rw [fsCounter_lstat N N hN]; simp
  have hlnk : (fsCounter N).lstat (counterPath (N - 1)) = .ok modeLnk := by
    rw [fsCounter_lstat N (N - 1) (by omega), if_pos (by omega)]
  refine ⟨hL, hreg, by decide, ?_⟩
  rw [run_chain_ceiling pf (fsCounter N) counterPath N N hL h0 (le_refl _) hS]
  intro h
  have h2 : chainLine pf (fsCounter N) counterPath (N - 1)
      = chainLine pf (fsCounter N) counterPath N := by
    injection h with _ h3
    injection h3
  exact chainLine_ne _ _ _ _ _ hlnk hreg h2

/-- C4, as stated, fails: on a 32-bit platform the default ceiling is
`SIZE_MAX = 4294967295`; for the chain of that many links `/0 -> /1 -> ...` that ends
in a regular file, the run stops at the ceiling on a link, so its output is not the
line of the whole chain. -/
theorem C4_counterexample :
    Links linux32 (fsCounter linux32.SIZE_MAX) counterPath linux32.SIZE_MAX ∧
    (fsCounter linux32.SIZE_MAX).lstat (counterPath linux32.SIZE_MAX) = .ok modeReg ∧
    S_ISLNK modeReg = false ∧
    run linux32 (fsCounter linux32.SIZE_MAX) (counterPath 0) linux32.SIZE_MAX
      ≠ Result.exited EXIT_SUCCESS
          ⟨chainLine linux32 (fsCounter linux32.SIZE_MAX) counterPath linux32.SIZE_MAX, []⟩ := by
  have hN : linux32.SIZE_MAX < 2 ^ 64 := by decide
  have h0 : 0 < linux32.SIZE_MAX := by decide
  exact counter_chain_cut linux32 linux32.SIZE_MAX h0 hN (le_refl _) (by decide)

/-! ## Runs of the driver -/

/-- C4, amended. For every chain of fewer than `SIZE_MAX` symbolic links
`P 0 -> P 1 -> ... -> P n` with absolute contents and paths of at most `PATH_MAX`
characters, in which `P n` exists and is not a symbolic link, the loop of `main` run on
`P 0` with the default ceiling (`max_hops = SIZE_MAX`) writes exactly
`"P 0 -> P 1 -> ... -> P n (<type>)"` and a newline to standard output, where `<type>`
is `get_ftype (P n)`, writes nothing to standard error, and exits with status 0. -/
theorem C4_chain_is_printed (pf : Platform) (fs : FS) (P : Nat → CStr) (n m : Nat)
    (hL : Links pf fs P n) (hm : fs.lstat (P n) = .ok m) (hs : S_ISLNK m = false)
    (hn : n < pf.SIZE_MAX) :
    run pf fs (P 0) pf.SIZE_MAX = Result.exited 0 ⟨chainLine pf fs P n, []⟩ :=
  run_chain_terminal pf fs P n pf.SIZE_MAX m hL hm hs hn (le_refl _)

/-- The paths `/tmp/a`, `/tmp/b`, `/tmp/c` form a chain of two links in `fsABC`. -/
theorem links_ABC : Links linux64 fsABC pathABC 2 := by
  refine ⟨by decide, ?_, ⟨modeReg, rfl⟩⟩
  intro i hi
  interval_cases i
  · exact ⟨⟨modeLnk, rfl, by decide⟩, rfl, by decide, by decide⟩
  · exact ⟨⟨modeLnk, rfl, by decide⟩, rfl, by decide, by decide⟩

/-- The chain `/tmp/a -> /tmp/b -> /tmp/c` of `fsABC` with the default ceiling. -/
theorem C4_chain_is_printed_witness :
    run linux64 fsABC "/tmp/a".toList linux64.SIZE_MAX
      = Result.exited 0 ⟨"/tmp/a -> /tmp/b -> /tmp/c (regular file)\n".toList, []⟩ :=
  C4_chain_is_printed linux64 fsABC pathABC 2 modeReg links_ABC rfl (by decide) (by decide)

/-- C5 (the code at the failing input). For the self-referential link
`/tmp/loop -> /tmp/loop` and the ceiling 3 the run exits with status 0 after printing
two segments `"/tmp/loop -> "` and the terminal line, not three. -/
theorem C5_ceiling_three_prints_two_segments :
    run linux64 fsLoop "/tmp/loop".toList 3
      = Result.exited 0
          ⟨"/tmp/loop -> /tmp/loop -> /tmp/loop (symbolic link)\n".toList, []⟩ ∧
    run linux64 fsLoop "/tmp/loop".toList 3
      ≠ Result.exited 0
          ⟨"/tmp/loop -> /tmp/loop -> /tmp/loop -> /tmp/loop (symbolic link)\n".toList, []⟩ := by
  constructor
  · decide
  · decide

/-- C6, as stated, fails: for the dangling link `/tmp/a -> /tmp/missing` the run prints
`"/tmp/a (nonexistent)"`, naming the link and not the missing target, and no segment
`"/tmp/a -> "`. -/
theorem C6_counterexample :
    fsMissing.lstat "/tmp/a".toList = .ok modeLnk ∧
    fsMissing.readlink "/tmp/a".toList = .ok "/tmp/missing".toList ∧
    fsMissing.lstat "/tmp/missing".toList = .error ENOENT ∧
    run linux64 fsMissing "/tmp/a".toList linux64.SIZE_MAX
      = Result.exited 1 ⟨"/tmp/a (nonexistent)\n".toList, []⟩ ∧
    run linux64 fsMissing "/tmp/a".toList linux64.SIZE_MAX
      ≠ Result.exited 1 ⟨"/tmp/a -> /tmp/missing (nonexistent)\n".toList, []⟩ := by
  refine ⟨rfl, rfl, rfl, by decide, by decide⟩

/-- C6, amended. For every symbolic link `P` whose content `T` is absolute and does not
exist (`P` and `T` of at most `PATH_MAX` characters), the loop of `main` run on `P` with
the default ceiling prints `"P (nonexistent)"` and a newline, so the path reported as
nonexistent is the link itself and the missing target is not printed, and the program
exits with the non-zero status `EXIT_FAILURE`. -/
theorem C6_dangling_link_reported (pf : Platform) (fs : FS) (P T : CStr) (m : Nat)
    (hl : fs.lstat P = .ok m) (hs : S_ISLNK m = true) (hr : fs.readlink P = .ok T)
    (ha : T.head? = some '/') (ht : T.length ≤ pf.PATH_MAX) (hc : P.length ≤ pf.PATH_MAX)
    (hmiss : fs.lstat T = .error ENOENT) :
    run pf fs P pf.SIZE_MAX
      = Result.exited EXIT_FAILURE ⟨P ++ " (nonexistent)\n".toList, []⟩ ∧
    EXIT_FAILURE ≠ 0 := by
  have hcand : candidate pf P T = T := by simp [candidate, ha]
  have hf := find_next_of_link pf fs (initial P pf.SIZE_MAX) m T hl hs hr ht hc
  have hS := pf.SIZE_MAX_min
  have hmod : 1 % (pf.SIZE_MAX + 1) = 1 := Nat.mod_eq_of_lt (by omega)
  have hlt : ¬ pf.SIZE_MAX ≤ 1 := by omega
  refine ⟨?_, by decide⟩
  unfold run
  unfold main_loop
  rw [hf]
  show _ = _
  simp only [initial] at hcand ⊢
  rw [hcand]
  simp [find_next_inspect, hmiss, hlt, hmod]

/-- The dangling link `/tmp/a -> /tmp/missing` of `fsMissing` with the default ceiling. -/
theorem C6_dangling_link_reported_witness :
    run linux64 fsMissing "/tmp/a".toList linux64.SIZE_MAX
      = Result.exited EXIT_FAILURE ⟨"/tmp/a (nonexistent)\n".toList, []⟩ :=
  (C6_dangling_link_reported linux64 fsMissing "/tmp/a".toList "/tmp/missing".toList modeLnk
    rfl (by decide) rfl (by decide) (by decide) (by decide) rfl).1

/-- C7, as stated, fails: for `/tmp/sub/link -> ../c` with `/tmp/c` a regular file, the
run prints the join as it is, `/tmp/sub/../c`, and not the normalized `/tmp/c`. -/
theorem C7_counterexample :
    fsRel.lstat "/tmp/sub/link".toList = .ok modeLnk ∧
    fsRel.readlink "/tmp/sub/link".toList = .ok "../c".toList ∧
    fsRel.lstat "/tmp/c".toList = .ok modeReg ∧
    run linux64 fsRel "/tmp/sub/link".toList linux64.SIZE_MAX
      = Result.exited 0 ⟨"/tmp/sub/link -> /tmp/sub/../c (regular file)\n".toList, []⟩ ∧
    run linux64 fsRel "/tmp/sub/link".toList linux64.SIZE_MAX
      ≠ Result.exited 0 ⟨"/tmp/sub/link -> /tmp/c (regular file)\n".toList, []⟩ := by
  refine ⟨rfl, rfl, rfl, by decide, by decide⟩

/-- C7, amended. For every symbolic link `P` (of at most `PATH_MAX` characters) whose
content `T` is relative, whose join `dirname(P) + "/" + T` is shorter than `PATH_MAX`
and exists, the path produced by the hop is that join exactly as written, with no
component resolved; and when the join is not itself a symbolic link, the loop of `main`
run on `P` with the default ceiling prints `"P -> <join> (<type of the join>)"` and a
newline and exits with status 0. -/
theorem C7_relative_join_verbatim (pf : Platform) (fs : FS) (P T : CStr) (m m1 : Nat)
    (hl : fs.lstat P = .ok m) (hs : S_ISLNK m = true) (hr : fs.readlink P = .ok T)
    (hrel : T.head? ≠ some '/') (hc : P.length ≤ pf.PATH_MAX)
    (hj : (dirname P ++ "/".toList ++ T).length < pf.PATH_MAX)
    (hex : fs.lstat (dirname P ++ "/".toList ++ T) = .ok m1) :
    find_next pf fs (initial P pf.SIZE_MAX)
      = some (0, { initial P pf.SIZE_MAX with
                   next := some (dirname P ++ "/".toList ++ T) }) ∧
    (S_ISLNK m1 = false →
      run pf fs P pf.SIZE_MAX
        = Result.exited 0
            ⟨P ++ " -> ".toList ++ (dirname P ++ "/".toList ++ T) ++ " (".toList
               ++ get_ftype pf fs (dirname P ++ "/".toList ++ T) ++ ")\n".toList, []⟩) := by
  have ht : T.length ≤ pf.PATH_MAX := by
    simp only [List.length_append] at hj
    omega
  have hcand : candidate pf P T = dirname P ++ "/".toList ++ T := by
    unfold candidate snprintf
    simp only [bne_iff_ne, ne_eq, hrel, not_false_eq_true, if_true]
    exact List.take_of_length_le (by omega)
  have hf : find_next pf fs (initial P pf.SIZE_MAX)
      = some (0, { initial P pf.SIZE_MAX with
                   next := some (dirname P ++ "/".toList ++ T) }) := by
    rw [find_next_of_link pf fs (initial P pf.SIZE_MAX) m T hl hs hr ht hc]
    show some (find_next_inspect fs _ (candidate pf P T)) = _
    rw [hcand]
    unfold find_next_inspect
    rw [hex]
  refine ⟨hf, ?_⟩
  intro hterm
  have hS := pf.SIZE_MAX_min
  unfold run
  rw [show pf.SIZE_MAX + 1 = (pf.SIZE_MAX - 1) + 1 + 1 by omega,
    main_loop_follow pf fs (initial P pf.SIZE_MAX) _ _ _ hf
      (by simp only [initial]; omega) (le_refl _),
    main_loop_terminal pf fs _ _ _ _ (find_next_of_not_link pf fs _ m1 hex hterm)]
  simp [initial, EXIT_SUCCESS]

/-- The link `/tmp/sub/link -> ../c` of `fsRel` with the default ceiling. -/
theorem C7_relative_join_verbatim_witness :
    find_next linux64 fsRel (initial "/tmp/sub/link".toList linux64.SIZE_MAX)
      = some (0, { initial "/tmp/sub/link".toList linux64.SIZE_MAX with
                   next := some "/tmp/sub/../c".toList }) ∧
    run linux64 fsRel "/tmp/sub/link".toList linux64.SIZE_MAX
      = Result.exited 0 ⟨"/tmp/sub/link -> /tmp/sub/../c (regular file)\n".toList, []⟩ :=
  have h := C7_relative_join_verbatim linux64 fsRel "/tmp/sub/link".toList "../c".toList
    modeLnk modeReg rfl (by decide) rfl (by decide) (by decide) (by decide) rfl
  ⟨h.1, h.2 (by decide)⟩

/-- C9 (the code at the failing inputs). With the ceiling 1, a call of `find_next` that
returns 2 (the dangling link `/tmp/a`) or 3 (the nonexistent path `/tmp/x`) is not
reported: the run prints the terminal line of the current path and exits with status 0. -/
theorem C9_error_at_ceiling_exits_zero :
    (find_next linux64 fsMissing (initial "/tmp/a".toList 1)).map Prod.fst = some 2 ∧
    run linux64 fsMissing "/tmp/a".toList 1
      = Result.exited 0 ⟨"/tmp/a (symbolic link)\n".toList, []⟩ ∧
    (find_next linux64 fsMissing (initial "/tmp/x".toList 1)).map Prod.fst = some 3 ∧
    run linux64 fsMissing "/tmp/x".toList 1
      = Result.exited 0 ⟨"/tmp/x (unknown file)\n".toList, []⟩ := by
  refine ⟨by decide, by decide, by decide, by decide⟩

end SymlinkTrack
